import Mathlib

/-!
# Verification of the `lbq` command-dispatch core

Shallow embedding of the library in `src` (the `index.ts` module holding
`Action` and `LBQ`).  JavaScript strings are Lean `String`s (ASCII scope:
`toLowerCase` is modelled character-wise), JavaScript functions are opaque
values carrying an identity and their source text, and `RegExp` objects are
opaque matchers carrying their source text and a match function
(`String.prototype.match` returns the match array or `null`, modelled as
`Option (List String)`).  Thrown exceptions are modelled with `Except`.
-/

namespace Lbq

/-- A JavaScript function value: an identity plus its source text
(`Function.prototype.toString`). -/
structure Fn where
  id : Nat
  src : String
deriving DecidableEq, Repr

/-- A JavaScript `RegExp` value: its source text (used by `util.inspect` and
`String(...)`) and its match behaviour `input.match(re)`, which yields the
match array (whole match first, then groups) or `null`. -/
structure Regex where
  src : String
  exec : String → Option (List String)

/-- One element of an `Action`'s pattern: `string | RegExp`. -/
inductive Pat where
  | str (s : String)
  | regex (r : Regex)

/-- The `Action.pattern` field: `string | RegExp | readonly (string | RegExp)[]`.
A lone string/regex is kept distinct from a one-element array, as in the
source (`Array.isArray` drives `length` and `label`). -/
inductive Pattern where
  | single (p : Pat)
  | list (ps : List Pat)

/-- The `class Action` data: pattern, handler and description. -/
structure Action where
  pattern : Pattern
  run : Fn
  description : String

/-- JavaScript `String.prototype.toLowerCase`, character-wise (ASCII scope). -/
def toLowerCase (s : String) : String :=
  String.mk (s.data.map Char.toLower)

/-- Embeds `run.toString().replace(/\s+/g, ' ').trim()`: collapse whitespace runs to
single spaces and trim the ends. -/
def normalizeWs (s : String) : String :=
  String.intercalate " " (((s.split Char.isWhitespace).filter (fun t => t ≠ "")))

/-- The `Action` constructor: `this.description = description || run.toString()
.replace(/\s+/g, ' ').trim()` — an absent or empty (falsy) description falls
back to the handler's normalized source text. -/
def Action.make (pattern : Pattern) (run : Fn) (description : Option String) : Action :=
  { pattern := pattern, run := run,
    description := if description.getD "" = "" then normalizeWs run.src else description.getD "" }

/-- Embeds `get length()`: `Array.isArray(this.pattern) ? this.pattern.length : 1`. -/
def Action.length (a : Action) : Nat :=
  match a.pattern with
  | .single _ => 1
  | .list ps => ps.length

/-- Embeds `util.inspect` on a single pattern: strings are single-quoted (exact for
quote-free ASCII text), regexes print as `/src/`. -/
def inspectPat : Pat → String
  | .str s => "'" ++ s ++ "'"
  | .regex r => "/" ++ r.src ++ "/"

/-- Embeds `get label()`: inspect each pattern, arrays joined with a space. -/
def Action.label (a : Action) : String :=
  match a.pattern with
  | .list ps => String.intercalate " " (ps.map inspectPat)
  | .single p => inspectPat p

/-- The body of `Action.notMatch(input, pattern, out)`: `none` when the source
returns `true` (no match, nothing pushed to `out`); `some groups` when it
returns `false` having pushed `groups`.  `input == null` (argv exhausted)
never matches; a string pattern compares lower-cased and pushes `[input]`;
a regex pattern pushes the full match array. -/
def matchToken (input : Option String) (p : Pat) : Option (List String) :=
  match input with
  | none => none
  | some s =>
    match p with
    | .str lit => if toLowerCase s = toLowerCase lit then some [s] else none
    | .regex r => r.exec s

/-- Embeds `Action.notMatch` proper: the boolean the source returns. -/
def Action.notMatch (input : Option String) (p : Pat) : Bool :=
  (matchToken input p).isNone

/-- The loop in `Action.matches` over an array pattern: position `i` tests
`argv[i]` (out-of-range indexing yields `undefined`); the first failure aborts
with no result, otherwise the pushed groups are collected in order. -/
def matchList (argv : List String) : List Pat → Nat → Option (List (List String))
  | [], _ => some []
  | p :: rest, i =>
    match matchToken argv[i]? p with
    | none => none
    | some groups =>
      match matchList argv rest (i + 1) with
      | none => none
      | some out => some (groups :: out)

/-- Embeds `Action.matches(argv, result)`: first component is the returned boolean,
second is the assignment made to `result.value` (`none` = the ref was left
untouched).  A zero-length action returns `true` immediately **without**
setting `result.value`; otherwise the pattern(s) are tested and on success
`result.value` receives the collected groups. -/
def Action.matches (a : Action) (argv : List String) : Bool × Option (List (List String)) :=
  if a.length = 0 then (true, none)
  else
    match a.pattern with
    | .list ps =>
      match matchList argv ps 0 with
      | none => (false, none)
      | some out => (true, some out)
    | .single p =>
      match matchToken argv[0]? p with
      | none => (false, none)
      | some groups => (true, some [groups])

/-! ## JavaScript argument values fed to `LBQ.register` -/

/-- The JavaScript values relevant to `register`'s runtime type dispatch.
`vobj` models a plain object through the three property names
`isActionDefinition` looks at (`none` = the property is absent). -/
inductive JSVal where
  | vstr (s : String)
  | vregex (r : Regex)
  | vfunc (f : Fn)
  | vundefined
  | vnull
  | vnum (n : Int)
  | vbool (b : Bool)
  | varr (xs : List JSVal)
  | vobj (pattern : Option JSVal) (run : Option JSVal) (description : Option JSVal)

/-- JavaScript truthiness of the modelled values. -/
def truthy : JSVal → Bool
  | .vstr s => !(s == "")
  | .vregex _ => true
  | .vfunc _ => true
  | .vundefined => false
  | .vnull => false
  | .vnum n => !(n == 0)
  | .vbool b => b
  | .varr _ => true
  | .vobj _ _ _ => true

/-- Embeds `typeof arg === 'string'`. -/
def isStr : JSVal → Bool
  | .vstr _ => true
  | _ => false

/-- Embeds `arg instanceof RegExp`. -/
def isRegex : JSVal → Bool
  | .vregex _ => true
  | _ => false

/-- Embeds `typeof arg === 'function'`. -/
def isFuncVal : JSVal → Bool
  | .vfunc _ => true
  | _ => false

/-- The pattern-shape check inside `isActionDefinition`:
`string | RegExp | (string | RegExp)[]`. -/
def patternShapeOk : JSVal → Bool
  | .vstr _ => true
  | .vregex _ => true
  | .varr xs => xs.all (fun x => isStr x || isRegex x)
  | _ => false

/-- Embeds `isActionDefinition(obj)`: a non-null object with `pattern` and `run`
properties, a well-shaped pattern and a callable `run`. -/
def isActionDefinition : JSVal → Bool
  | .vobj (some p) (some r) _ => patternShapeOk p && isFuncVal r
  | _ => false

/-- Embeds `String(value)` as used by the helper `toString`: strings pass through,
`null`/`undefined` give `undefined` (`none`).  The remaining conversions are
only sketched (no claim depends on them). -/
def toStringJS : JSVal → Option String
  | .vstr s => some s
  | .vnull => none
  | .vundefined => none
  | .vnum n => some (toString n)
  | .vbool b => some (if b then "true" else "false")
  | .vfunc f => some f.src
  | .vregex r => some ("/" ++ r.src ++ "/")
  | .varr _ => some ""
  | .vobj _ _ _ => some "[object Object]"

/-- Convert a scanned pattern argument; the source casts `args.slice(0, end)`
to `(string | RegExp)[]` unchecked, so other constructors are unreachable
where this is applied. -/
def patOf : JSVal → Pat
  | .vstr s => .str s
  | .vregex r => .regex r
  | _ => .str ""

/-- The `pattern` field of a validated definition object, kept as-is
(lone value vs array). -/
def toPatternField : JSVal → Pattern
  | .vstr s => .single (.str s)
  | .vregex r => .single (.regex r)
  | .varr xs => .list (xs.map patOf)
  | _ => .list []

/-- The loop of `LBQ._getRunAndDescription`: `run` is overwritten by every
callable, `description` by every string; other values are skipped. -/
def getRunAndDescriptionLoop : List JSVal → Option Fn → Option String → Option Fn × Option String
  | [], run, d => (run, d)
  | arg :: rest, run, d =>
    match arg with
    | .vfunc f => getRunAndDescriptionLoop rest (some f) d
    | .vstr s => getRunAndDescriptionLoop rest run (some s)
    | _ => getRunAndDescriptionLoop rest run d

/-- Embeds `LBQ._getRunAndDescription(args, start)`: scan `args[start..]`; throw when
no callable was seen. -/
def getRunAndDescription (args : List JSVal) (start : Nat) : Except String (Fn × Option String) :=
  match getRunAndDescriptionLoop (args.drop start) none none with
  | (some run, d) => .ok (run, d)
  | (none, _) => .error "No action provided in register()"

/-- The pattern scan in `register`: starting at `end = 1`, advance while the
argument is a string or a regex; a callable or any other value stops the
scan. -/
def scanEndLoop : List JSVal → Nat → Nat
  | [], e => e
  | a :: rest, e =>
    if isFuncVal a then e
    else if !isStr a && !isRegex a then e
    else scanEndLoop rest (e + 1)

/-- The value of `end` after the scan loop in `register`. -/
def scanEnd (args : List JSVal) : Nat :=
  scanEndLoop (args.drop 1) 1

/-- Embeds `LBQ.register(...args)`: returns the updated `actions` array, or the
message of the thrown error.  Mirrors the source's branches: falsy first
argument → zero-pattern action; definition object; leading string/regex →
pattern scan; anything else → `TypeError`. -/
def LBQ.register (actions : List Action) (args : List JSVal) : Except String (List Action) :=
  let first := args.headD .vundefined
  if truthy first = false then
    match getRunAndDescription args 0 with
    | .error e => .error e
    | .ok (run, d) => .ok (actions ++ [Action.make (.list []) run d])
  else
    match first, isActionDefinition first with
    | .vobj (some p) (some (.vfunc run)) dv, true =>
      .ok (actions ++ [Action.make (toPatternField p) run (toStringJS (dv.getD .vundefined))])
    | f, _ =>
      if isStr f || isRegex f then
        let e := scanEnd args
        let pats := if e = 1 then Pattern.single (patOf f)
                    else Pattern.list ((args.take e).map patOf)
        match getRunAndDescription args e with
        | .error er => .error er
        | .ok (run, d) => .ok (actions ++ [Action.make pats run d])
      else .error "Invalid arguments in register()"

/-! ## The dispatcher `LBQ.find` -/

/-- The mutable state of the loop in `LBQ.find`: the `found` variable, the
`maxLength` variable and the shared `actionArgs` ref (initially `null`). -/
structure FindState where
  found : Option Action
  maxLength : Nat
  value : Option (List (List String))

/-- The `for (const action of this.actions)` loop of `find`: an action is
tried when nothing was found yet or it is strictly longer than the current
best; on a successful `matches` it becomes the new best, and the ref is
updated only when `matches` actually assigned it (never for zero-length
actions). -/
def findLoop (argv : List String) : List Action → FindState → FindState
  | [], s => s
  | a :: rest, s =>
    if s.found.isNone || decide (s.maxLength < a.length) then
      let m := a.matches argv
      if m.1 then
        findLoop argv rest
          ⟨some a, a.length, match m.2 with | some o => some o | none => s.value⟩
      else findLoop argv rest s
    else findLoop argv rest s

/-- Embeds `LBQ.find(argv)`: run the loop, then return `[found, actionArgs.value,
argv.slice(maxLength)]` only when both `found` and `actionArgs.value` are
truthy, else `undefined`. -/
def LBQ.find (actions : List Action) (argv : List String) :
    Option (Action × List (List String) × List String) :=
  let s := findLoop argv actions ⟨none, 0, none⟩
  match s.found, s.value with
  | some a, some v => some (a, v, argv.drop s.maxLength)
  | _, _ => none

/-! ## `LBQ.list` -/

/-- Embeds `String.prototype.padEnd(n)` with spaces. -/
def padEnd (s : String) (n : Nat) : String :=
  s ++ String.mk (List.replicate (n - s.length) ' ')

/-- Embeds `LBQ.list()`: compute the padding width (longest label plus four), then
render one line per action in registration order. -/
def LBQ.list (actions : List Action) : List String :=
  let len := (actions.foldl (fun mx a => max mx a.label.length) 0) + 4
  let arr := actions.map (fun a => (a.label, a.description))
  arr.map (fun ld => padEnd ld.1 len ++ ld.2)


/-- A pattern-typed argument in the `register` scan: `string | RegExp`. -/
def isPatArg (a : JSVal) : Bool := isStr a || isRegex a

/-- The last callable in an argument list (what the `_getRunAndDescription`
loop leaves in `run`). -/
def lastFunc : List JSVal → Option Fn
  | [] => none
  | a :: rest =>
    match lastFunc rest with
    | some f => some f
    | none => match a with | .vfunc f => some f | _ => none

/-- The last string in an argument list (what the `_getRunAndDescription`
loop leaves in `description`). -/
def lastStr : List JSVal → Option String
  | [] => none
  | a :: rest =>
    match lastStr rest with
    | some s => some s
    | none => match a with | .vstr s => some s | _ => none

/-- The pattern field `register` builds from the scanned prefix: a singleton
prefix is kept as a lone pattern (`end === 1`), otherwise an array. -/
def mkPatterns : List JSVal → Pattern
  | [p] => .single (patOf p)
  | ps => .list (ps.map patOf)

/-- The listing as the claim words it.  Modelled from the spec: each rule's label
left-padded to the longest label width across all rules, followed by the
description. -/
def listClaimed (actions : List Action) : List String :=
  let len := actions.foldl (fun mx a => max mx a.label.length) 0
  actions.map (fun a =>
    String.mk (List.replicate (len - a.label.length) ' ') ++ a.label ++ a.description)

/-! ## Concrete scenarios -/

/-- A first concrete handler. -/
def fA : Fn := ⟨1, "() => a"⟩

/-- A second concrete handler. -/
def fB : Fn := ⟨2, "() => b"⟩

/-- The zero-pattern (catch-all) rule produced by `register('', fA)`. -/
def catchA : Action := Action.make (.list []) fA none

/-- The zero-pattern (catch-all) rule produced by `register('', fB)`. -/
def catchB : Action := Action.make (.list []) fB none

/-- A two-pattern rule `['a', 'b']`. -/
def ruleAB : Action := Action.make (.list [.str "a", .str "b"]) fA none

/-- A one-pattern rule `'a'`. -/
def ruleA : Action := Action.make (.single (.str "a")) fB none

/-- A third concrete handler, used in the listing scenario. -/
def fC : Fn := ⟨3, "d"⟩

/-- A one-pattern rule `'hi'` with description `"d"`. -/
def ruleHi : Action := Action.make (.single (.str "hi")) fC (some "d")

/-! ## Helper lemmas about matching -/

/-- A successful `matchList` starting at position `i` on a nonempty pattern
array needs `argv` to reach position `i + ps.length`. -/
theorem matchList_length_le (argv : List String) (ps : List Pat) (i : Nat)
    (out : List (List String)) (h : matchList argv ps i = some out) :
    ps = [] ∨ i + ps.length ≤ argv.length := by
  induction ps generalizing i out with
  | nil => exact Or.inl rfl
  | cons p rest ih =>
    right
    simp only [matchList] at h
    cases hg : matchToken argv[i]? p with
    | none => rw [hg] at h; exact absurd h (by simp)
    | some g =>
      rw [hg] at h
      have hi : i < argv.length := by
        by_contra hcon
        have hnone : argv[i]? = none := List.getElem?_eq_none (by omega)
        rw [hnone] at hg
        simp [matchToken] at hg
      cases hr : matchList argv rest (i + 1) with
      | none => rw [hr] at h; simp at h
      | some o2 =>
        rcases ih (i + 1) o2 hr with h0 | hle
        · subst h0; simpa using hi
        · simp only [List.length_cons]; omega

/-- Unfolding of `matches` on a lone pattern. -/
theorem matches_single (p : Pat) (run : Fn) (d : String) (argv : List String) :
    Action.matches ⟨.single p, run, d⟩ argv =
      match matchToken argv[0]? p with
      | none => (false, none)
      | some groups => (true, some [groups]) := rfl

/-- Unfolding of `matches` on an array pattern. -/
theorem matches_list (ps : List Pat) (run : Fn) (d : String) (argv : List String) :
    Action.matches ⟨.list ps, run, d⟩ argv =
      if ps.length = 0 then (true, none)
      else
        match matchList argv ps 0 with
        | none => (false, none)
        | some out => (true, some out) := rfl

/-- An action can only report a match when `argv` holds at least
`action.length` tokens. -/
theorem matches_length_le (a : Action) (argv : List String)
    (h : (a.matches argv).1 = true) : a.length ≤ argv.length := by
  obtain ⟨pat, run, d⟩ := a
  cases pat with
  | single p =>
    rw [matches_single] at h
    show 1 ≤ argv.length
    cases hg : matchToken argv[0]? p with
    | none => rw [hg] at h; simp at h
    | some g =>
      by_contra hcon
      have hnone : argv[0]? = none := List.getElem?_eq_none (by omega)
      rw [hnone] at hg
      simp [matchToken] at hg
  | list ps =>
    rw [matches_list] at h
    show ps.length ≤ argv.length
    by_cases h0 : ps.length = 0
    · omega
    · rw [if_neg h0] at h
      cases hm : matchList argv ps 0 with
      | none => rw [hm] at h; simp at h
      | some out =>
        rcases matchList_length_le argv ps 0 out hm with hnil | hle
        · exact absurd (by simp [hnil]) h0
        · omega

/-- A nonzero-length action that matches always records its captures. -/
theorem matches_true_sets_value (a : Action) (argv : List String)
    (h0 : a.length ≠ 0) (h : (a.matches argv).1 = true) :
    ∃ out, a.matches argv = (true, some out) := by
  obtain ⟨pat, run, d⟩ := a
  cases pat with
  | single p =>
    rw [matches_single] at h ⊢
    cases hg : matchToken argv[0]? p with
    | none => rw [hg] at h; simp at h
    | some g => exact ⟨[g], rfl⟩
  | list ps =>
    have hps : ps.length ≠ 0 := h0
    rw [matches_list, if_neg hps] at h ⊢
    cases hm : matchList argv ps 0 with
    | none => rw [hm] at h; simp at h
    | some out => exact ⟨out, rfl⟩

/-- The `find` loop never produces a found action longer than `argv`. -/
theorem findLoop_found_le (argv : List String) (acts : List Action) (s : FindState)
    (hs : ∀ b, s.found = some b → Action.length b ≤ argv.length) :
    ∀ a, (findLoop argv acts s).found = some a → Action.length a ≤ argv.length := by
  induction acts generalizing s with
  | nil => simpa [findLoop] using hs
  | cons a0 rest ih =>
    intro a ha
    simp only [findLoop] at ha
    by_cases hg : (s.found.isNone || decide (s.maxLength < a0.length)) = true
    · rw [if_pos hg] at ha
      by_cases hm : (a0.matches argv).1 = true
      · rw [if_pos hm] at ha
        refine ih _ ?_ a ha
        intro b hb
        simp only at hb
        cases hb
        exact matches_length_le a0 argv hm
      · rw [if_neg hm] at ha
        exact ih s hs a ha
    · rw [if_neg hg] at ha
      exact ih s hs a ha

/-! ## Theorems about the dispatcher -/

/-- C7: if `token` is absent (argv shorter than the pattern position) the
per-position test is a no-match, so `find` on an argv holding fewer tokens
than a rule's pattern length never selects that rule. -/
theorem find_never_selects_longer_rule (r : Action) (argv : List String)
    (lbq : List Action) (h : argv.length < r.length) :
    (LBQ.find lbq argv).map Prod.fst ≠ some r := by
  intro hfind
  simp only [LBQ.find] at hfind
  set s := findLoop argv lbq ⟨none, 0, none⟩ with hs
  cases hf : s.found with
  | none => rw [hf] at hfind; simp at hfind
  | some a =>
    cases hv : s.value with
    | none => rw [hf, hv] at hfind; simp at hfind
    | some v =>
      rw [hf, hv] at hfind
      simp at hfind
      rw [hs] at hf
      have hle := findLoop_found_le argv lbq ⟨none, 0, none⟩
        (by intro b hb; simp at hb) a hf
      rw [hfind] at hle
      omega

/-- C3: in a registry holding a rule of length `L1` and a rule of length
`L2 < L1`, both matching `argv`, `find` returns the longer rule whichever
order the two were registered in. -/
theorem find_longest_wins (a1 a2 : Action) (argv : List String)
    (hlen : a2.length < a1.length)
    (h1 : (a1.matches argv).1 = true)
    (h2 : (a2.matches argv).1 = true) :
    (LBQ.find [a1, a2] argv).map Prod.fst = some a1 ∧
    (LBQ.find [a2, a1] argv).map Prod.fst = some a1 := by
  obtain ⟨o1, ho1⟩ := matches_true_sets_value a1 argv (by omega) h1
  have hnot : ¬(a1.length < a2.length) := by omega
  constructor
  · simp [LBQ.find, findLoop, ho1, hnot]
  · simp only [LBQ.find, findLoop]
    simp [ho1, h2, hlen]

/-- C1: a registry whose longest (here: only) matching rule is zero-length:
the rule reports a match on `["x"]`, yet `find` returns no outcome, because
`matches` returns `true` for a zero-length rule without ever assigning the
shared captures ref, and `find` yields a result only when that ref was set.
The claim says `find` returns the rule with empty captures and the full argv
as leftover. -/
theorem find_zero_length_rule_yields_no_outcome :
    LBQ.register [] [.vstr "", .vfunc fA] = .ok [catchA] ∧
    (catchA.matches ["x"]).1 = true ∧
    LBQ.find [catchA] ["x"] = none :=
  ⟨rfl, rfl, rfl⟩

/-- C4: registering a second rule with a pattern sequence identical to an
existing rule's succeeds and appends (no deduplication, rejection or
overwrite) — but with two zero-length rules, the rules of equal maximal
matching length both match `[]` and `find` returns no outcome instead of the
first-registered rule. -/
theorem find_equal_length_tie_zero_yields_no_outcome :
    LBQ.register [] [.vstr "", .vfunc fA] = .ok [catchA] ∧
    LBQ.register [catchA] [.vstr "", .vfunc fB] = .ok [catchA, catchB] ∧
    (catchA.matches []).1 = true ∧
    (catchB.matches []).1 = true ∧
    LBQ.find [catchA, catchB] [] = none :=
  ⟨rfl, rfl, rfl, rfl, rfl⟩

/-- Witness for `find_longest_wins`: the 2-pattern rule `['a', 'b']` beats the
1-pattern rule `'a'` on `["a", "b"]` in both registration orders. -/
theorem find_longest_wins_witness :
    ruleA.length < ruleAB.length ∧
    ((LBQ.find [ruleAB, ruleA] ["a", "b"]).map Prod.fst = some ruleAB ∧
     (LBQ.find [ruleA, ruleAB] ["a", "b"]).map Prod.fst = some ruleAB) :=
  ⟨by decide, find_longest_wins ruleAB ruleA ["a", "b"] (by decide) (by decide) (by decide)⟩

/-- Witness for `find_never_selects_longer_rule`: a 2-pattern rule is never
selected on a 1-token argv. -/
theorem find_never_selects_longer_rule_witness :
    (["a"] : List String).length < ruleAB.length ∧
    (LBQ.find [ruleAB] ["a"]).map Prod.fst ≠ some ruleAB :=
  ⟨by decide, find_never_selects_longer_rule ruleAB ["a"] [ruleAB] (by decide)⟩

/-! ## Registration theorems -/

/-- C5: a literal pattern matches a present token exactly when the two are
equal lower-cased, and the captured groups are the single-element sequence
holding the original token (not the literal). -/
theorem literal_match_characterization (P T : String) :
    matchToken (some T) (Pat.str P) =
      (if toLowerCase P = toLowerCase T then some [T] else none) := by
  simp only [matchToken]
  by_cases h : toLowerCase T = toLowerCase P
  · rw [if_pos h, if_pos h.symm]
  · rw [if_neg h, if_neg (fun hc => h hc.symm)]

/-- C10: in `register('', run)` the empty string is falsy, so the call takes
the absent-first-argument branch and registers a zero-pattern catch-all rule,
not a rule with the empty token as its single literal pattern. -/
theorem register_empty_string_is_catch_all (acts : List Action) (f : Fn) :
    LBQ.register acts [.vstr "", .vfunc f] =
      .ok (acts ++ [{ pattern := .list [], run := f, description := normalizeWs f.src }]) ∧
    Action.length { pattern := .list [], run := f, description := normalizeWs f.src } = 0 :=
  ⟨rfl, rfl⟩

/-- C2 (amended): a single callable argument, or a callable followed by a
description, is rejected with the invalid-arguments `TypeError`; the
zero-pattern catch-all branch is reached only through a falsy first argument.
-/
theorem register_lone_callable_is_error (acts : List Action) (f : Fn) (d : String) :
    LBQ.register acts [.vfunc f] = .error "Invalid arguments in register()" ∧
    LBQ.register acts [.vfunc f, .vstr d] = .error "Invalid arguments in register()" ∧
    LBQ.register acts [.vundefined, .vfunc f] =
      .ok (acts ++ [{ pattern := .list [], run := f, description := normalizeWs f.src }]) :=
  ⟨rfl, rfl, rfl⟩

/-- Counterexample to C2 as stated: a callable followed by a description
string does not register a catch-all; it throws. -/
theorem register_lone_callable_cex :
    LBQ.register [] [.vfunc fA, .vstr "Hello"] = .error "Invalid arguments in register()" ∧
    LBQ.register [] [.vfunc fA] = .error "Invalid arguments in register()" :=
  ⟨rfl, rfl⟩

/-- Counterexample to C8 as stated: an ordered sequence of literal
patterns is a supported pattern shape per the claim, yet passing one
positionally (with a callable present) throws. -/
theorem register_array_pattern_cex :
    LBQ.register [] [.varr [.vstr "a"], .vfunc fA] =
      .error "Invalid arguments in register()" := rfl

/-- Counterexample to C6 as stated: with two callables after the pattern,
the handler is the last one (`fB`), not the first (`fA`). -/
theorem register_two_callables_cex :
    LBQ.register [] [.vstr "a", .vfunc fA, .vfunc fB] =
      .ok [{ pattern := .single (.str "a"), run := fB, description := normalizeWs fB.src }] ∧
    fB ≠ fA :=
  ⟨rfl, by decide⟩

/-! ## The argument scan, declaratively -/

/-- The `_getRunAndDescription` loop keeps the last callable and the last
string, falling back to the incoming accumulators. -/
theorem getRunAndDescriptionLoop_eq (l : List JSVal) (r : Option Fn) (d : Option String) :
    getRunAndDescriptionLoop l r d =
      ((match lastFunc l with | some f => some f | none => r),
       (match lastStr l with | some s => some s | none => d)) := by
  induction l generalizing r d with
  | nil => rfl
  | cons a rest ih =>
    cases a <;>
      simp only [getRunAndDescriptionLoop, lastFunc, lastStr, ih] <;>
      cases lastFunc rest <;> cases lastStr rest <;> rfl

/-- The helper `_getRunAndDescription` returns the last callable and last string of the
scanned suffix, or throws when no callable is there. -/
theorem getRunAndDescription_eq (args : List JSVal) (start : Nat) :
    getRunAndDescription args start =
      match lastFunc (args.drop start) with
      | none => .error "No action provided in register()"
      | some run => .ok (run, lastStr (args.drop start)) := by
  unfold getRunAndDescription
  rw [getRunAndDescriptionLoop_eq]
  cases lastFunc (args.drop start) <;> cases lastStr (args.drop start) <;> rfl

/-- The scan loop stops at the first argument that is not a string or regex.
-/
theorem scanEndLoop_eq (l : List JSVal) (e : Nat) :
    scanEndLoop l e = e + (l.takeWhile isPatArg).length := by
  induction l generalizing e with
  | nil => simp [scanEndLoop]
  | cons a rest ih =>
    cases a <;>
      simp [scanEndLoop, isPatArg, isStr, isRegex, isFuncVal, List.takeWhile_cons, ih] <;>
      omega

/-- Taking as many elements as `takeWhile` keeps recovers `takeWhile`. -/
theorem take_length_takeWhile {α : Type} (l : List α) (q : α → Bool) :
    l.take (l.takeWhile q).length = l.takeWhile q := by
  induction l with
  | nil => rfl
  | cons a rest ih =>
    by_cases h : q a
    · simp [List.takeWhile_cons_of_pos h, ih]
    · simp [List.takeWhile_cons_of_neg h]

/-- Dropping as many elements as `takeWhile` keeps recovers `dropWhile`. -/
theorem drop_length_takeWhile {α : Type} (l : List α) (q : α → Bool) :
    l.drop (l.takeWhile q).length = l.dropWhile q := by
  induction l with
  | nil => rfl
  | cons a rest ih =>
    by_cases h : q a
    · simp [List.takeWhile_cons_of_pos h, List.dropWhile_cons_of_pos h, ih]
    · simp [List.takeWhile_cons_of_neg h, List.dropWhile_cons_of_neg h]

/-- There is a last callable exactly when some argument is callable. -/
theorem lastFunc_isSome_eq_any (l : List JSVal) :
    (lastFunc l).isSome = l.any isFuncVal := by
  induction l with
  | nil => rfl
  | cons a rest ih =>
    rw [List.any_cons, ← ih]
    cases hl : lastFunc rest <;> cases a <;> simp [lastFunc, isFuncVal, hl]

/-- No scanned pattern argument is callable. -/
theorem takeWhile_patArg_no_func (l : List JSVal) :
    (l.takeWhile isPatArg).any isFuncVal = false := by
  induction l with
  | nil => rfl
  | cons a rest ih =>
    by_cases h : isPatArg a = true
    · rw [List.takeWhile_cons_of_pos h, List.any_cons, ih]
      cases a <;> simp_all [isPatArg, isStr, isRegex, isFuncVal]
    · rw [List.takeWhile_cons_of_neg (by simpa using h)]
      rfl

/-- The scan branch of `register`, declaratively: with a truthy leading
pattern argument, the pattern sequence is the maximal leading run of
string/regex arguments; among the remaining arguments the last callable
becomes the handler and the last string the description; with no callable
there, the call throws. -/
theorem register_scan_eq (acts : List Action) (p0 : JSVal)
    (rest : List JSVal) (htruthy : truthy p0 = true) (hpat : isPatArg p0 = true) :
    LBQ.register acts (p0 :: rest) =
      match lastFunc (rest.dropWhile isPatArg) with
      | none => .error "No action provided in register()"
      | some run =>
        .ok (acts ++ [Action.make (mkPatterns (p0 :: rest.takeWhile isPatArg)) run
          (lastStr (rest.dropWhile isPatArg))]) := by
  have he : scanEnd (p0 :: rest) = 1 + (rest.takeWhile isPatArg).length := by
    simp only [scanEnd, List.drop_succ_cons, List.drop_zero]
    exact scanEndLoop_eq rest 1
  have hdrop : (p0 :: rest).drop (1 + (rest.takeWhile isPatArg).length)
      = rest.dropWhile isPatArg := by
    rw [Nat.add_comm, List.drop_succ_cons]
    exact drop_length_takeWhile rest isPatArg
  have hgrd := getRunAndDescription_eq (p0 :: rest) (1 + (rest.takeWhile isPatArg).length)
  rw [hdrop] at hgrd
  have hpats : (if (1 + (rest.takeWhile isPatArg).length) = 1
        then Pattern.single (patOf p0)
        else Pattern.list (((p0 :: rest).take (1 + (rest.takeWhile isPatArg).length)).map patOf))
      = mkPatterns (p0 :: rest.takeWhile isPatArg) := by
    cases htw : rest.takeWhile isPatArg with
    | nil => simp [mkPatterns]
    | cons x xs =>
      rw [if_neg (by simp)]
      rw [Nat.add_comm, List.take_succ_cons]
      rw [← htw, take_length_takeWhile, htw]
      rfl
  cases p0 with
  | vstr s =>
    have hs : (s == "") = false := by
      by_contra hcon
      simp only [truthy] at htruthy
      rw [Bool.not_eq_false] at hcon
      rw [hcon] at htruthy
      simp at htruthy
    simp only [LBQ.register, List.headD, truthy, hs, Bool.not_false, isActionDefinition,
      isStr, isRegex, Bool.or_false, if_neg, he, hpats, hgrd]
    cases lastFunc (rest.dropWhile isPatArg) <;> rfl
  | vregex r =>
    simp only [LBQ.register, List.headD, truthy, isActionDefinition,
      isStr, isRegex, Bool.false_or, he, hpats, hgrd]
    cases lastFunc (rest.dropWhile isPatArg) <;> rfl
  | vfunc f => simp [isPatArg, isStr, isRegex] at hpat
  | vundefined => simp [isPatArg, isStr, isRegex] at hpat
  | vnull => simp [isPatArg, isStr, isRegex] at hpat
  | vnum n => simp [isPatArg, isStr, isRegex] at hpat
  | vbool b => simp [isPatArg, isStr, isRegex] at hpat
  | varr xs => simp [isPatArg, isStr, isRegex] at hpat
  | vobj p r d => simp [isPatArg, isStr, isRegex] at hpat

/-- C6 (amended): with a truthy leading pattern argument, `register`
accumulates the maximal leading run of string/regex arguments as the pattern
sequence (a singleton run kept as a lone pattern); among the remaining
arguments the **last** callable becomes the handler and the **last** string
becomes the description (strings both before and after the callable count);
with no callable among them, registration throws. -/
theorem register_overload_resolution (acts : List Action) (p0 : JSVal)
    (rest : List JSVal) (htruthy : truthy p0 = true) (hpat : isPatArg p0 = true) :
    LBQ.register acts (p0 :: rest) =
      match lastFunc (rest.dropWhile isPatArg) with
      | none => .error "No action provided in register()"
      | some run =>
        .ok (acts ++ [Action.make (mkPatterns (p0 :: rest.takeWhile isPatArg)) run
          (lastStr (rest.dropWhile isPatArg))]) :=
  register_scan_eq acts p0 rest htruthy hpat

/-- Witness for `register_overload_resolution`: two leading patterns, then a
callable, then two strings — the second string wins as description. -/
theorem register_overload_resolution_witness :
    truthy (JSVal.vstr "a") = true ∧
    LBQ.register [] [.vstr "a", .vstr "b", .vfunc fA, .vstr "d1", .vstr "d2"] =
      .ok [Action.make (.list [.str "a", .str "b"]) fA (some "d2")] :=
  ⟨by decide,
    (register_overload_resolution [] (.vstr "a")
      [.vstr "b", .vfunc fA, .vstr "d1", .vstr "d2"] (by decide) (by decide)).trans
      (by rfl)⟩

/-- The falsy-first branch of `register` succeeds exactly when some argument
is callable. -/
theorem register_falsy_isOk (acts : List Action) (args : List JSVal)
    (h : truthy (args.headD .vundefined) = false) :
    (LBQ.register acts args).isOk = args.any isFuncVal := by
  simp only [LBQ.register, h, if_pos]
  rw [getRunAndDescription_eq, List.drop_zero, ← lastFunc_isSome_eq_any]
  cases lastFunc args <;> rfl

/-- The scan branch of `register` succeeds exactly when some argument is
callable. -/
theorem register_patArg_isOk (acts : List Action) (p0 : JSVal) (rest : List JSVal)
    (htruthy : truthy p0 = true) (hpat : isPatArg p0 = true) :
    (LBQ.register acts (p0 :: rest)).isOk = (p0 :: rest).any isFuncVal := by
  rw [register_scan_eq acts p0 rest htruthy hpat]
  have hfn : isFuncVal p0 = false := by
    cases p0 <;> simp_all [isPatArg, isStr, isRegex, isFuncVal]
  have hany : (p0 :: rest).any isFuncVal = (rest.dropWhile isPatArg).any isFuncVal := by
    rw [List.any_cons, hfn, Bool.false_or]
    conv_lhs => rw [← List.takeWhile_append_dropWhile (p := isPatArg) (l := rest)]
    rw [List.any_append, takeWhile_patArg_no_func, Bool.false_or]
  rw [hany, ← lastFunc_isSome_eq_any]
  cases lastFunc (rest.dropWhile isPatArg) <;> rfl

/-- C8 (amended): `register` succeeds exactly when the first argument is a
valid definition object, or the first argument is falsy or a string/regex and
some argument is callable; every other call throws the invalid-arguments
error synchronously.  In particular a lone callable first argument, or a bare
array of patterns passed positionally, throws even though a callable is
present among the arguments. -/
theorem register_error_characterization (acts : List Action) (args : List JSVal) :
    (LBQ.register acts args).isOk =
      (isActionDefinition (args.headD .vundefined) ||
        ((!truthy (args.headD .vundefined) || isPatArg (args.headD .vundefined)) &&
          args.any isFuncVal)) := by
  cases args with
  | nil => rfl
  | cons a rest =>
    cases a with
    | vstr s =>
      by_cases hs : s = ""
      · subst hs
        rw [register_falsy_isOk acts _ (by rfl)]
        simp [isActionDefinition, truthy, isPatArg, isStr, isRegex]
      · have ht : truthy (JSVal.vstr s) = true := by simp [truthy, hs]
        rw [register_patArg_isOk acts _ rest ht (by simp [isPatArg, isStr])]
        simp [isActionDefinition, ht, isPatArg, isStr]
    | vregex r =>
      rw [register_patArg_isOk acts (JSVal.vregex r) rest (by rfl) (by rfl)]
      simp [isActionDefinition, truthy, isPatArg, isStr, isRegex]
    | vfunc f =>
      simp [LBQ.register, isActionDefinition, truthy, isPatArg, isStr, isRegex]
      rfl
    | vundefined =>
      rw [register_falsy_isOk acts _ (by rfl)]
      simp [isActionDefinition, truthy, isPatArg, isStr, isRegex]
    | vnull =>
      rw [register_falsy_isOk acts _ (by rfl)]
      simp [isActionDefinition, truthy, isPatArg, isStr, isRegex]
    | vnum n =>
      by_cases hn : n = 0
      · subst hn
        rw [register_falsy_isOk acts _ (by rfl)]
        simp [isActionDefinition, truthy, isPatArg, isStr, isRegex]
      · have ht : truthy (JSVal.vnum n) = true := by simp [truthy, hn]
        simp [LBQ.register, isActionDefinition, ht, isPatArg, isStr, isRegex]
        rfl
    | vbool b =>
      cases b with
      | false =>
        rw [register_falsy_isOk acts _ (by rfl)]
        simp [isActionDefinition, truthy, isPatArg, isStr, isRegex]
      | true =>
        simp [LBQ.register, isActionDefinition, truthy, isPatArg, isStr, isRegex]
        rfl
    | varr xs =>
      simp [LBQ.register, isActionDefinition, truthy, isPatArg, isStr, isRegex]
      rfl
    | vobj p r d =>
      by_cases hdef : isActionDefinition (.vobj p r d) = true
      · rcases p with _ | pv
        · simp [isActionDefinition] at hdef
        rcases r with _ | rv
        · simp [isActionDefinition] at hdef
        cases rv with
        | vfunc f =>
          simp only [LBQ.register, List.headD, truthy, Bool.true_eq_false, if_false, hdef]
          simp [hdef]
          rfl
        | vstr s2 => simp [isActionDefinition, isFuncVal] at hdef
        | vregex r2 => simp [isActionDefinition, isFuncVal] at hdef
        | vundefined => simp [isActionDefinition, isFuncVal] at hdef
        | vnull => simp [isActionDefinition, isFuncVal] at hdef
        | vnum n2 => simp [isActionDefinition, isFuncVal] at hdef
        | vbool b2 => simp [isActionDefinition, isFuncVal] at hdef
        | varr xs2 => simp [isActionDefinition, isFuncVal] at hdef
        | vobj p2 r2 d2 => simp [isActionDefinition, isFuncVal] at hdef
      · rw [Bool.not_eq_true] at hdef
        simp [LBQ.register, hdef, truthy, isPatArg, isStr, isRegex]
        rfl

/-! ## Listing -/

/-- C9 (amended): `list` returns one line per rule in registration order:
the rule's label padded on the right with spaces to four columns more than
the longest label width across all rules, followed by the description. -/
theorem list_format (actions : List Action) :
    LBQ.list actions =
      actions.map (fun a =>
        padEnd a.label ((actions.foldl (fun mx b => max mx b.label.length) 0) + 4)
          ++ a.description) := by
  simp only [LBQ.list, List.map_map]
  rfl

/-- Counterexample to **C9** as stated: the implementation pads on the right
to four more than the longest label width, so a rendered line differs from
the claim's left-padded-to-longest-width line. -/
theorem list_padding_cex :
    LBQ.list [ruleHi] = ["'hi'    d"] ∧
    listClaimed [ruleHi] = ["'hi'd"] ∧
    ("'hi'    d" : String) ≠ "'hi'd" :=
  ⟨rfl, rfl, by decide⟩

end Lbq
